import Mathlib

/-!
Shallow embedding of the typing-practice state engine of this repository
(`typing-simulator.js`): the per-position diff tracker (`handleInput`), the
key-availability filter (`isKeyAvailable`), the completion check performed by
`renderText`, the statistics calculators, and the plain-text statistics
report writer/parser (`saveStatistics` / `parseStatsText`).

Strings are modelled as `List Char`; JS numbers used for statistics are
modelled as `ℚ`; timestamps (`Date.now()`) are explicit `Nat` parameters.
-/

namespace TypingSim

/-- Per-position state of a reference character (`charStates` entries are the
strings `'pending'`, `'correct'`, `'incorrect'` in the source). -/
inductive CharState where
  | pending
  | correct
  | incorrect
deriving DecidableEq

/-- JavaScript whitespace test, restricted to the whitespace characters this
code base can actually encounter (`\s` in the regexes, `trim`/`trimEnd`). -/
def isJsWhitespace (c : Char) : Bool :=
  c = ' ' || c = '\t' || c = '\n' || c = '\r' || c = '\x0b' || c = '\x0c' || c = '\u00A0'

/-- JS `String.prototype.trimEnd`: remove trailing whitespace. -/
def jsTrimEnd (l : List Char) : List Char :=
  (l.reverse.dropWhile isJsWhitespace).reverse

/-- JS `String.prototype.trimStart`: remove leading whitespace. -/
def jsTrimStart (l : List Char) : List Char :=
  l.dropWhile isJsWhitespace

/-- JS `String.prototype.trim`: remove whitespace at both ends. -/
def jsTrim (l : List Char) : List Char :=
  jsTrimEnd (jsTrimStart l)

/-- `isKeyAvailable` from `typing-simulator.js`.  `availableKeysSet` is the
normalized (lower-cased) configured allow-set; an empty set means every key is
available.  `key` is either a single character or a `KeyboardEvent.key` name.
In the final branch the source computes
`key.length === 1 ? key.toLowerCase() : keyLower`; both arms equal
`key.toLowerCase()`, which is `keyLower` here. -/
def isKeyAvailable (availableKeysSet : List (List Char)) (key : List Char) : Bool :=
  let keyLower := key.map Char.toLower
  if key = [' '] || key = ['\u00A0'] || key = [','] || key = ['.'] ||
      key = "Backspace".toList || key = ['\x08'] || key = "Enter".toList ||
      key = "Return".toList || key = ['\n'] || key = ['\r'] ||
      keyLower = "space".toList || keyLower = "comma".toList || keyLower = "dot".toList ||
      keyLower = "backspace".toList || keyLower = "enter".toList then
    true
  else if availableKeysSet.length = 0 then
    true
  else if key = "Tab".toList || keyLower = "tab".toList then
    availableKeysSet.contains ("tab".toList)
  else if key = ['\t'] then
    availableKeysSet.contains ("tab".toList)
  else
    availableKeysSet.contains keyLower

/-- The mutable module-level state of `typing-simulator.js` that the diff
tracker operates on (`originalText`, `typedText`, `charStates`, `startTime`,
`totalErrors`, `totalInputs`, and the configured `availableKeysSet`). -/
structure SimState where
  originalText : List Char
  typedText : List Char
  charStates : List CharState
  startTime : Option Nat
  totalErrors : Nat
  totalInputs : Nat
  availableKeysSet : List (List Char)
deriving DecidableEq

/-- The forward-typing loop of `handleInput`: walk the newly appended
characters starting at absolute index `charIndex`, stopping when the index
reaches the end of the reference text; classify each accepted character and
bump the counters.  Returns the updated `(charStates, totalErrors,
totalInputs)`. -/
def processForward (original : List Char) :
    Nat → List Char → List CharState → Nat → Nat → List CharState × Nat × Nat
  | _, [], states, errors, inputs => (states, errors, inputs)
  | charIndex, typedChar :: rest, states, errors, inputs =>
    if original.length ≤ charIndex then
      (states, errors, inputs)
    else
      let expectedChar := original.getD charIndex ' '
      if typedChar = expectedChar then
        processForward original (charIndex + 1) rest
          (states.set charIndex .correct) errors (inputs + 1)
      else
        processForward original (charIndex + 1) rest
          (states.set charIndex .incorrect) (errors + 1) (inputs + 1)

/-- The backspace loop of `handleInput`: for every index `i` with
`lo ≤ i < hi` that is inside `charStates`, reset the state to `pending`
(`lo` is the new input length, `hi` the reference length; `idx` is the index
of the head of the remaining list). -/
def resetFromAux (lo hi : Nat) : Nat → List CharState → List CharState
  | _, [] => []
  | idx, st :: rest =>
    (if lo ≤ idx && idx < hi then CharState.pending else st) :: resetFromAux lo hi (idx + 1) rest

/-- The availability filter `handleInput` applies to the whole buffer when an
allow-set is configured (lines 344–355 of the source). -/
def filteredInput (availableKeysSet : List (List Char)) (raw : List Char) : List Char :=
  if availableKeysSet.length = 0 then raw
  else raw.filter (fun c => isKeyAvailable availableKeysSet [c])

/-- The value `handleInput` actually diffs against the stored prefix: the
filtered buffer, clamped to the reference length (lines 362–366). -/
def effectiveInput (availableKeysSet : List (List Char)) (originalLength : Nat)
    (raw : List Char) : List Char :=
  let filtered := filteredInput availableKeysSet raw
  if originalLength < filtered.length then filtered.take originalLength else filtered

/-- Clock start on the first keypress (lines 357–360): set once the filtered
buffer is nonempty, never reset afterwards; `now` models `Date.now()`. -/
def newStartTime (now : Nat) (s : SimState) (raw : List Char) : Option Nat :=
  match s.startTime with
  | none => if 0 < (filteredInput s.availableKeysSet raw).length then some now else none
  | some t => some t

/-- `handleInput` from `typing-simulator.js` (the DiffTracker `applyInput`).
`raw` is the entire current value of the input buffer.  Filter the buffer
through the key policy, start the clock on the first nonempty buffer, clamp
to the reference length, then diff against the stored `typedText`: longer
means forward typing, shorter means backspace, equal length leaves the
tracked state unchanged. -/
def handleInput (now : Nat) (s : SimState) (raw : List Char) : SimState :=
  let startTime := newStartTime now s raw
  let input := effectiveInput s.availableKeysSet s.originalText.length raw
  if s.typedText.length < input.length then
    let newChars := input.drop s.typedText.length
    let r := processForward s.originalText s.typedText.length newChars
      s.charStates s.totalErrors s.totalInputs
    { s with typedText := input, charStates := r.1, totalErrors := r.2.1,
             totalInputs := r.2.2, startTime := startTime }
  else if input.length < s.typedText.length then
    { s with typedText := input,
             charStates := resetFromAux input.length s.originalText.length 0 s.charStates,
             startTime := startTime }
  else
    { s with startTime := startTime }

/-- The session state right after `loadText`: the fetched text trimmed at the
end becomes `originalText`, `charStates` is one `pending` per character, and
every counter is at its initial value. -/
def initState (availableKeysSet : List (List Char)) (text : List Char) : SimState :=
  let originalText := jsTrimEnd text
  { originalText := originalText
    typedText := []
    charStates := List.replicate originalText.length .pending
    startTime := none
    totalErrors := 0
    totalInputs := 0
    availableKeysSet := availableKeysSet }

/-- `restart` from `typing-simulator.js` (the state-engine part): empty the
typed text, reset every character state to `pending`, and zero the clock and
the counters. -/
def restartState (s : SimState) : SimState :=
  { s with typedText := []
           charStates := s.charStates.map (fun _ => .pending)
           startTime := none
           totalErrors := 0
           totalInputs := 0 }

/-- An external trigger reaching the engine: an input-buffer change (with its
`Date.now()` timestamp) or a restart command. -/
inductive Event where
  | input (now : Nat) (raw : List Char)
  | restart

/-- One step of the session: dispatch an event to the matching handler. -/
def step (s : SimState) : Event → SimState
  | .input now raw => handleInput now s raw
  | .restart => restartState s

/-- Run a whole session: load the reference text, then process the events in
order. -/
def run (availableKeysSet : List (List Char)) (text : List Char)
    (events : List Event) : SimState :=
  events.foldl step (initState availableKeysSet text)

/-- The completion check `renderText` performs: the right-trimmed typed text
has the same length as the right-trimmed reference text. -/
def isCompleteText (reference typed : List Char) : Bool :=
  (jsTrimEnd typed).length == (jsTrimEnd reference).length

/-- Completion of a session state. -/
def isComplete (s : SimState) : Bool :=
  isCompleteText s.originalText s.typedText

/-- Count of unfixed incorrect characters (the `errorsLeft` loop in both
statistics calculators). -/
def countIncorrect (states : List CharState) : Nat :=
  (states.filter (fun st => decide (st = CharState.incorrect))).length

/-- JS `text.split(/\s+/)` modelled by splitting at every single whitespace
character; the two differ only in empty tokens between consecutive whitespace
characters, which the `.filter(word => word.length > 0)` step removes.
`cur` accumulates the current token in reverse. -/
def splitOnWs : List Char → List Char → List (List Char)
  | [], cur => [cur.reverse]
  | c :: rest, cur =>
    if isJsWhitespace c then cur.reverse :: splitOnWs rest []
    else splitOnWs rest (c :: cur)

/-- The word count both statistics calculators use:
`originalText.trim().split(/\s+/).filter(word => word.length > 0).length`.
It depends only on the reference text. -/
def wordCount (text : List Char) : Nat :=
  ((splitOnWs (jsTrim text) []).filter (fun w => decide (0 < w.length))).length

/-- The accuracy formula shared by `calculateRealtimeStats` and
`calculateStatistics`:
`totalInputs > 0 ? ((totalInputs - totalErrors) / totalInputs) * 100 : 0`. -/
def accuracyOf (totalInputs totalErrors : Nat) : ℚ :=
  if 0 < totalInputs then
    ((totalInputs : ℚ) - (totalErrors : ℚ)) / (totalInputs : ℚ) * 100
  else 0

/-- The record returned by `calculateRealtimeStats` (the live snapshot);
`chars` is flattened into `charsTyped`/`charsTotal`. -/
structure RTStats where
  speed : ℚ
  accuracy : ℚ
  time : ℚ
  errors : Nat
  errorsLeft : Nat
  charsTyped : Nat
  charsTotal : Nat
deriving DecidableEq

/-- `calculateRealtimeStats` from `typing-simulator.js`: always report the
chars counts; with no start time every metric is zero; otherwise compute the
elapsed time, errors left, accuracy and words per minute. -/
def calculateRealtimeStats (s : SimState) (now : Nat) : RTStats :=
  let charsTyped := s.typedText.length
  let charsTotal := s.originalText.length
  match s.startTime with
  | none => ⟨0, 0, 0, 0, 0, charsTyped, charsTotal⟩
  | some startTime =>
    let totalTimeSeconds : ℚ := ((now : ℚ) - (startTime : ℚ)) / 1000
    let totalTimeMinutes : ℚ := totalTimeSeconds / 60
    let errorsLeft := countIncorrect s.charStates
    let accuracy := accuracyOf s.totalInputs s.totalErrors
    let wordsTyped := wordCount s.originalText
    let wpm := if 0 < totalTimeMinutes then (wordsTyped : ℚ) / totalTimeMinutes else 0
    ⟨wpm, accuracy, totalTimeSeconds, s.totalErrors, errorsLeft, charsTyped, charsTotal⟩

/-- The final report record built by `calculateStatistics`. -/
structure FinalStats where
  totalErrors : Nat
  errorsLeft : Nat
  totalTime : ℚ
  accuracy : ℚ
  speed : ℚ
deriving DecidableEq

/-- `calculateStatistics` from `typing-simulator.js`: `null` (here `none`)
when no typing has started, otherwise the final report. -/
def calculateStatistics (s : SimState) (now : Nat) : Option FinalStats :=
  match s.startTime with
  | none => none
  | some startTime =>
    let totalTimeSeconds : ℚ := ((now : ℚ) - (startTime : ℚ)) / 1000
    let totalTimeMinutes : ℚ := totalTimeSeconds / 60
    let errorsLeft := countIncorrect s.charStates
    let accuracy := accuracyOf s.totalInputs s.totalErrors
    let wordsTyped := wordCount s.originalText
    let wpm := if 0 < totalTimeMinutes then (wordsTyped : ℚ) / totalTimeMinutes else 0
    some ⟨s.totalErrors, errorsLeft, totalTimeSeconds, accuracy, wpm⟩

/-- Decimal digit character for `d < 10` (for larger `d` it renders `9`). -/
def digitChar (d : Nat) : Char :=
  match d with
  | 0 => '0' | 1 => '1' | 2 => '2' | 3 => '3' | 4 => '4'
  | 5 => '5' | 6 => '6' | 7 => '7' | 8 => '8' | _ => '9'

/-- Decimal rendering worker, structurally recursive on a fuel bound so that
the kernel can evaluate it (`fuel > n` always holds at the call sites). -/
def natDigitsAux : Nat → Nat → List Char
  | 0, _ => []
  | fuel + 1, n =>
    if n < 10 then [digitChar n]
    else natDigitsAux fuel (n / 10) ++ [digitChar (n % 10)]

/-- Decimal rendering of a natural number, most significant digit first (the
template-literal interpolation of an integer in `saveStatistics`). -/
def natDigits (n : Nat) : List Char :=
  natDigitsAux (n + 1) n

/-- Two-digit rendering of `m < 100`, with a leading zero when needed. -/
def twoDigits (m : Nat) : List Char :=
  if m < 10 then '0' :: natDigits m else natDigits m

/-- `Number.prototype.toFixed(2)` for a nonnegative rational, modelled over
`ℚ` as rounding half up to hundredths (the spec fixes two decimal places on
the floats of the report; exact float ties are outside this model). -/
def toFixed2 (q : ℚ) : List Char :=
  let n := (q * 100 + 1 / 2).floor.toNat
  natDigits (n / 100) ++ '.' :: twoDigits (n % 100)

/-- The rational value that the two-decimal rendering `toFixed2` denotes. -/
def fixed2Value (q : ℚ) : ℚ :=
  (((q * 100 + 1 / 2).floor.toNat : ℚ)) / 100

/-- Join lines with `'\n'` separators (how the template literal in
`saveStatistics` lays its lines out). -/
def joinLines : List (List Char) → List Char
  | [] => []
  | [l] => l
  | l :: rest => l ++ '\n' :: joinLines rest

/-- The lines of the plain-text summary `saveStatistics` builds; `dateStr`
stands for the `new Date().toLocaleString()` interpolation. -/
def formatStats (st : FinalStats) (dateStr : List Char) : List (List Char) :=
  [ "Typing Statistics".toList
  , "==================".toList
  , []
  , "Total Errors Made: ".toList ++ natDigits st.totalErrors
  , "Errors Left (Unfixed): ".toList ++ natDigits st.errorsLeft
  , "Total Time: ".toList ++ toFixed2 st.totalTime ++ " seconds".toList
  , "Accuracy: ".toList ++ toFixed2 st.accuracy ++ ['%']
  , "Speed: ".toList ++ toFixed2 st.speed ++ " words per minute".toList
  , []
  , "Generated: ".toList ++ dateStr
  , [] ]

/-- The full text of the persisted report. -/
def statsText (st : FinalStats) (dateStr : List Char) : List Char :=
  joinLines (formatStats st dateStr)

/-- `statsText.split('\n')` as used by `parseStatsText`. -/
def splitLines (text : List Char) : List (List Char) :=
  match text with
  | [] => [[]]
  | c :: rest =>
    if c = '\n' then [] :: splitLines rest
    else
      match splitLines rest with
      | [] => [[c]]
      | l :: ls => (c :: l) :: ls

/-- Suffix of `line` after the first occurrence of `label`, `none` when
`label` does not occur (`String.prototype.includes` plus the anchoring of the
field regex at the label). -/
def afterFirst (label : List Char) : List Char → Option (List Char)
  | [] => if label.isEmpty then some [] else none
  | c :: rest =>
    if label.isPrefixOf (c :: rest) then some ((c :: rest).drop label.length)
    else afterFirst label rest

/-- `parseInt(digits, 10)` on a digit string. -/
def parseNat (l : List Char) : Nat :=
  l.foldl (fun acc c => acc * 10 + (c.toNat - 48)) 0

/-- `parseFloat` on a `[\d.]+` capture: integer part up to the first dot,
then the fractional digits. -/
def parseDecimal (l : List Char) : ℚ :=
  let intPart := l.takeWhile Char.isDigit
  let rest := l.drop intPart.length
  match rest with
  | '.' :: fr =>
    let frac := fr.takeWhile Char.isDigit
    (parseNat intPart : ℚ) + (parseNat frac : ℚ) / (10 : ℚ) ^ frac.length
  | _ => (parseNat intPart : ℚ)

/-- Match of a field regex `/<label>:\s*(\d+)/` against a line: find the
label, skip whitespace, take the digit run (the regex is modelled greedily,
at the first occurrence of the label). -/
def intField (label line : List Char) : Option Nat :=
  match afterFirst label line with
  | none => none
  | some r =>
    let ds := (r.dropWhile isJsWhitespace).takeWhile Char.isDigit
    if ds.isEmpty then none else some (parseNat ds)

/-- Match of `/<label>:\s*([\d.]+)\s*<tail>/` against a line (the `Total
Time` and `Speed` field regexes). -/
def floatFieldWs (label tail line : List Char) : Option ℚ :=
  match afterFirst label line with
  | none => none
  | some r =>
    let r1 := r.dropWhile isJsWhitespace
    let num := r1.takeWhile (fun c => c.isDigit || c = '.')
    if num.isEmpty then none
    else if tail.isPrefixOf ((r1.drop num.length).dropWhile isJsWhitespace) then
      some (parseDecimal num)
    else none

/-- Match of `/<label>:\s*([\d.]+)<tail>/` against a line (the `Accuracy`
field regex, whose `%` follows the number directly). -/
def floatFieldNoWs (label tail line : List Char) : Option ℚ :=
  match afterFirst label line with
  | none => none
  | some r =>
    let r1 := r.dropWhile isJsWhitespace
    let num := r1.takeWhile (fun c => c.isDigit || c = '.')
    if num.isEmpty then none
    else if tail.isPrefixOf (r1.drop num.length) then some (parseDecimal num)
    else none

/-- The label of the total-errors line. -/
def lblTotalErrors : List Char := "Total Errors Made:".toList

/-- The label of the errors-left line. -/
def lblErrorsLeft : List Char := "Errors Left (Unfixed):".toList

/-- The label of the total-time line. -/
def lblTotalTime : List Char := "Total Time:".toList

/-- The label of the accuracy line. -/
def lblAccuracy : List Char := "Accuracy:".toList

/-- The label of the speed line. -/
def lblSpeed : List Char := "Speed:".toList

/-- The partially-filled `stats` object `parseStatsText` accumulates. -/
structure ParsedStats where
  totalErrors : Option Nat
  errorsLeft : Option Nat
  totalTime : Option ℚ
  accuracy : Option ℚ
  speed : Option ℚ
deriving DecidableEq

/-- One iteration of the `for (const line of lines)` loop of
`parseStatsText`: an `includes` test on each label in turn, then the field
regex; a line whose regex fails to match leaves the field untouched. -/
def parseLine (acc : ParsedStats) (line : List Char) : ParsedStats :=
  if (afterFirst lblTotalErrors line).isSome then
    match intField lblTotalErrors line with
    | some v => { acc with totalErrors := some v }
    | none => acc
  else if (afterFirst lblErrorsLeft line).isSome then
    match intField lblErrorsLeft line with
    | some v => { acc with errorsLeft := some v }
    | none => acc
  else if (afterFirst lblTotalTime line).isSome then
    match floatFieldWs lblTotalTime ("seconds".toList) line with
    | some v => { acc with totalTime := some v }
    | none => acc
  else if (afterFirst lblAccuracy line).isSome then
    match floatFieldNoWs lblAccuracy ['%'] line with
    | some v => { acc with accuracy := some v }
    | none => acc
  else if (afterFirst lblSpeed line).isSome then
    match floatFieldWs lblSpeed ("words per minute".toList) line with
    | some v => { acc with speed := some v }
    | none => acc
  else acc

/-- `parseStatsText` from `typing-simulator.js`: split the report into lines
and recover the five labeled fields. -/
def parseStatsText (text : List Char) : ParsedStats :=
  (splitLines text).foldl parseLine ⟨none, none, none, none, none⟩

/-- Number of mismatches the forward-typing loop records when characters
`cs` arrive at absolute index `idx`: characters beyond the reference length
are dropped by the loop, which the `zip` truncation mirrors. -/
def mismatchCount (original : List Char) (idx : Nat) (cs : List Char) : Nat :=
  ((cs.zip (original.drop idx)).filter (fun p => decide (p.1 ≠ p.2))).length

/-- Number of positions whose state is not `pending`. -/
def nonPendingCount (states : List CharState) : Nat :=
  (states.filter (fun st => decide (st ≠ CharState.pending))).length

/-- The structural invariant the diff tracker maintains: the states array
matches the reference length, the typed prefix fits inside the reference,
and a position is non-`pending` exactly when it lies inside the typed
prefix. -/
def StateInv (s : SimState) : Prop :=
  s.charStates.length = s.originalText.length ∧
  s.typedText.length ≤ s.originalText.length ∧
  ∀ i, i < s.charStates.length →
    (s.charStates.getD i .pending ≠ .pending ↔ i < s.typedText.length)

lemma getD_set_of_ne {α : Type} (a d : α) :
    ∀ (l : List α) (i j : Nat), i ≠ j → (l.set i a).getD j d = l.getD j d := by
  intro l
  induction l with
  | nil => intro i j _; cases i <;> rfl
  | cons b t ih =>
    intro i j hij
    cases i with
    | zero =>
      cases j with
      | zero => exact absurd rfl hij
      | succ j => rfl
    | succ i =>
      cases j with
      | zero => rfl
      | succ j =>
        simp only [List.set_cons_succ, List.getD_cons_succ]
        exact ih i j (fun h => hij (by omega))

lemma getD_set_self {α : Type} (a d : α) :
    ∀ (l : List α) (i : Nat), i < l.length → (l.set i a).getD i d = a := by
  intro l
  induction l with
  | nil => intro i h; simp at h
  | cons b t ih =>
    intro i h
    cases i with
    | zero => rfl
    | succ i =>
      simp only [List.set_cons_succ, List.getD_cons_succ]
      exact ih i (by simp at h; omega)

lemma getD_replicate {α : Type} (a d : α) :
    ∀ (n i : Nat), i < n → (List.replicate n a).getD i d = a := by
  intro n
  induction n with
  | zero => intro i h; omega
  | succ n ih =>
    intro i h
    cases i with
    | zero => rfl
    | succ i => exact ih i (by omega)

lemma processForward_fst_length (original : List Char) :
    ∀ (cs : List Char) (idx : Nat) (states : List CharState) (e n : Nat),
      (processForward original idx cs states e n).1.length = states.length := by
  intro cs
  induction cs with
  | nil => intro idx states e n; rfl
  | cons c rest ih =>
    intro idx states e n
    simp only [processForward]
    by_cases h : original.length ≤ idx
    · rw [if_pos h]
    · rw [if_neg h]
      by_cases hc : c = original.getD idx ' '
      · rw [if_pos hc, ih, List.length_set]
      · rw [if_neg hc, ih, List.length_set]

lemma processForward_getD_outside (original : List Char) (d : CharState) :
    ∀ (cs : List Char) (idx : Nat) (states : List CharState) (e n : Nat) (j : Nat),
      (j < idx ∨ idx + cs.length ≤ j) →
      (processForward original idx cs states e n).1.getD j d = states.getD j d := by
  intro cs
  induction cs with
  | nil => intro idx states e n j _; rfl
  | cons c rest ih =>
    intro idx states e n j hj
    have hne : idx ≠ j := by rcases hj with h | h <;> simp at h ⊢ <;> omega
    have hj' : j < idx + 1 ∨ idx + 1 + rest.length ≤ j := by
      rcases hj with h | h
      · left; omega
      · right; simp at h; omega
    simp only [processForward]
    by_cases h : original.length ≤ idx
    · rw [if_pos h]
    · rw [if_neg h]
      by_cases hc : c = original.getD idx ' '
      · rw [if_pos hc, ih _ _ _ _ _ hj', getD_set_of_ne _ _ _ _ _ hne]
      · rw [if_neg hc, ih _ _ _ _ _ hj', getD_set_of_ne _ _ _ _ _ hne]

lemma processForward_getD_inside (original : List Char) (d : CharState) :
    ∀ (cs : List Char) (idx : Nat) (states : List CharState) (e n : Nat) (j : Nat),
      states.length = original.length →
      idx + cs.length ≤ original.length →
      idx ≤ j → j < idx + cs.length →
      (processForward original idx cs states e n).1.getD j d ≠ .pending := by
  intro cs
  induction cs with
  | nil =>
    intro idx states e n j _ _ h1 h2
    simp only [List.length_nil] at h2
    omega
  | cons c rest ih =>
    intro idx states e n j hlen hbound hj1 hj2
    simp only [List.length_cons] at hbound hj2
    have hidx : idx < original.length := by omega
    have h : ¬ original.length ≤ idx := by omega
    simp only [processForward]
    rw [if_neg h]
    by_cases hje : j = idx
    · subst hje
      by_cases hc : c = original.getD j ' '
      · rw [if_pos hc]
        rw [processForward_getD_outside original d rest (j + 1) _ _ _ j (Or.inl (by omega))]
        rw [getD_set_self _ _ _ _ (by omega)]
        simp
      · rw [if_neg hc]
        rw [processForward_getD_outside original d rest (j + 1) _ _ _ j (Or.inl (by omega))]
        rw [getD_set_self _ _ _ _ (by omega)]
        simp
    · have hj1' : idx + 1 ≤ j := by omega
      have hj2' : j < idx + 1 + rest.length := by omega
      by_cases hc : c = original.getD idx ' '
      · rw [if_pos hc]
        exact ih (idx + 1) _ _ _ j (by simp [hlen]) (by omega) hj1' hj2'
      · rw [if_neg hc]
        exact ih (idx + 1) _ _ _ j (by simp [hlen]) (by omega) hj1' hj2'

lemma mismatchCount_cons (original : List Char) (idx : Nat) (c : Char) (rest : List Char)
    (hidx : idx < original.length) :
    mismatchCount original idx (c :: rest) =
      (if c = original.getD idx ' ' then 0 else 1) + mismatchCount original (idx + 1) rest := by
  have hdrop : original.drop idx = original.getD idx ' ' :: original.drop (idx + 1) := by
    rw [List.drop_eq_getElem_cons hidx]
    congr 1
    exact (List.getD_eq_getElem original ' ' hidx).symm
  simp only [mismatchCount, hdrop, List.zip_cons_cons, List.filter_cons]
  split
  · split
    · simp_all
    · simp_all
      omega
  · split
    · simp_all
    · simp_all

lemma processForward_counts (original : List Char) :
    ∀ (cs : List Char) (idx : Nat) (states : List CharState) (e n : Nat),
      (processForward original idx cs states e n).2.1 =
        e + mismatchCount original idx cs ∧
      (processForward original idx cs states e n).2.2 =
        n + min cs.length (original.length - idx) := by
  intro cs
  induction cs with
  | nil =>
    intro idx states e n
    refine ⟨by simp [processForward, mismatchCount], by simp [processForward]⟩
  | cons c rest ih =>
    intro idx states e n
    simp only [processForward]
    by_cases h : original.length ≤ idx
    · have hdrop : original.drop idx = [] := List.drop_of_length_le h
      rw [if_pos h]
      refine ⟨by simp [mismatchCount, hdrop], ?_⟩
      have : original.length - idx = 0 := by omega
      simp [this]
    · have hidx : idx < original.length := by omega
      rw [if_neg h]
      have hmm : min (rest.length + 1) (original.length - idx) =
          min rest.length (original.length - (idx + 1)) + 1 := by omega
      have hmc := mismatchCount_cons original idx c rest hidx
      by_cases hc : c = original.getD idx ' '
      · rw [if_pos hc]
        obtain ⟨h1, h2⟩ := ih (idx + 1) (states.set idx .correct) e (n + 1)
        refine ⟨?_, ?_⟩
        · rw [h1, hmc, if_pos hc]
          omega
        · rw [h2]
          simp only [List.length_cons, hmm]
          omega
      · rw [if_neg hc]
        obtain ⟨h1, h2⟩ := ih (idx + 1) (states.set idx .incorrect) (e + 1) (n + 1)
        refine ⟨?_, ?_⟩
        · rw [h1, hmc, if_neg hc]
          omega
        · rw [h2]
          simp only [List.length_cons, hmm]
          omega

lemma resetFromAux_length (lo hi : Nat) :
    ∀ (states : List CharState) (i0 : Nat),
      (resetFromAux lo hi i0 states).length = states.length := by
  intro states
  induction states with
  | nil => intro i0; rfl
  | cons st rest ih => intro i0; simp [resetFromAux, ih]

lemma resetFromAux_getD (lo hi : Nat) (d : CharState) :
    ∀ (states : List CharState) (i0 j : Nat),
      (resetFromAux lo hi i0 states).getD j d =
        if j < states.length ∧ lo ≤ i0 + j ∧ i0 + j < hi then .pending
        else states.getD j d := by
  intro states
  induction states with
  | nil =>
    intro i0 j
    simp [resetFromAux]
  | cons st rest ih =>
    intro i0 j
    cases j with
    | zero =>
      simp only [resetFromAux, List.getD_cons_zero]
      by_cases hcnd : lo ≤ i0 ∧ i0 < hi
      · have hb : (lo ≤ i0 && i0 < hi) = true := by simp [hcnd.1, hcnd.2]
        have hr : 0 < (st :: rest).length ∧ lo ≤ i0 + 0 ∧ i0 + 0 < hi := by
          refine ⟨by simp, by omega, by omega⟩
        rw [hb, if_pos hr]
        simp
      · have hb : (lo ≤ i0 && i0 < hi) = false := by
          simp only [Bool.and_eq_false_iff, decide_eq_false_iff_not]
          omega
        have hr : ¬(0 < (st :: rest).length ∧ lo ≤ i0 + 0 ∧ i0 + 0 < hi) := by
          simp only [List.length_cons]
          omega
        rw [hb, if_neg hr]
        simp
    | succ j =>
      simp only [resetFromAux, List.getD_cons_succ]
      rw [ih (i0 + 1) j]
      have hc : (j < rest.length ∧ lo ≤ i0 + 1 + j ∧ i0 + 1 + j < hi) ↔
          (j + 1 < (st :: rest).length ∧ lo ≤ i0 + (j + 1) ∧ i0 + (j + 1) < hi) := by
        simp only [List.length_cons]
        omega
      exact if_congr hc rfl rfl

lemma map_const_pending :
    ∀ (l : List CharState),
      l.map (fun _ => CharState.pending) = List.replicate l.length .pending := by
  intro l
  induction l with
  | nil => rfl
  | cons a t ih => simp [ih, List.replicate_succ]

lemma length_filter_nonpending :
    ∀ (states : List CharState) (k : Nat), k ≤ states.length →
      (∀ i, i < states.length → (states.getD i .pending ≠ .pending ↔ i < k)) →
      nonPendingCount states = k := by
  intro states
  induction states with
  | nil =>
    intro k hk _
    simp only [List.length_nil] at hk
    simp [nonPendingCount]
    omega
  | cons st rest ih =>
    intro k hk hiff
    have h0 := hiff 0 (by simp)
    simp only [List.getD_cons_zero] at h0
    cases k with
    | zero =>
      have hpend : st = .pending := by
        by_contra hne
        exact absurd (h0.mp hne) (by omega)
      have hrest : nonPendingCount rest = 0 := by
        apply ih 0 (by omega)
        intro i hi
        have hstep := hiff (i + 1) (by simp only [List.length_cons]; omega)
        simp only [List.getD_cons_succ] at hstep
        constructor
        · intro hne; exact absurd (hstep.mp hne) (by omega)
        · omega
      simp only [nonPendingCount, List.filter_cons, hpend] at hrest ⊢
      simpa using hrest
    | succ k' =>
      have hne : st ≠ .pending := h0.mpr (by omega)
      have hrest : nonPendingCount rest = k' := by
        apply ih k' (by simp only [List.length_cons] at hk; omega)
        intro i hi
        have hstep := hiff (i + 1) (by simp only [List.length_cons]; omega)
        simp only [List.getD_cons_succ] at hstep
        constructor
        · intro hx; have := hstep.mp hx; omega
        · intro hx; exact hstep.mpr (by omega)
      simp only [nonPendingCount, List.filter_cons] at hrest ⊢
      have hd : (decide (st ≠ CharState.pending)) = true := by simpa using hne
      rw [hd, if_pos rfl, List.length_cons, hrest]

lemma effectiveInput_length_le (keys : List (List Char)) (N : Nat) (raw : List Char) :
    (effectiveInput keys N raw).length ≤ N := by
  unfold effectiveInput
  by_cases h : N < (filteredInput keys raw).length
  · rw [if_pos h]; simp [List.length_take]
  · rw [if_neg h]; omega

lemma handleInput_forward (now : Nat) (s : SimState) (raw : List Char)
    (h : s.typedText.length <
      (effectiveInput s.availableKeysSet s.originalText.length raw).length) :
    handleInput now s raw =
      { s with
        typedText := effectiveInput s.availableKeysSet s.originalText.length raw,
        charStates := (processForward s.originalText s.typedText.length
          ((effectiveInput s.availableKeysSet s.originalText.length raw).drop
            s.typedText.length) s.charStates s.totalErrors s.totalInputs).1,
        totalErrors := (processForward s.originalText s.typedText.length
          ((effectiveInput s.availableKeysSet s.originalText.length raw).drop
            s.typedText.length) s.charStates s.totalErrors s.totalInputs).2.1,
        totalInputs := (processForward s.originalText s.typedText.length
          ((effectiveInput s.availableKeysSet s.originalText.length raw).drop
            s.typedText.length) s.charStates s.totalErrors s.totalInputs).2.2,
        startTime := newStartTime now s raw } := by
  simp only [handleInput]
  rw [if_pos h]

lemma handleInput_back (now : Nat) (s : SimState) (raw : List Char)
    (h : (effectiveInput s.availableKeysSet s.originalText.length raw).length <
      s.typedText.length) :
    handleInput now s raw =
      { s with
        typedText := effectiveInput s.availableKeysSet s.originalText.length raw,
        charStates := resetFromAux
          (effectiveInput s.availableKeysSet s.originalText.length raw).length
          s.originalText.length 0 s.charStates,
        startTime := newStartTime now s raw } := by
  simp only [handleInput]
  rw [if_neg (by omega), if_pos h]

lemma handleInput_same (now : Nat) (s : SimState) (raw : List Char)
    (h : (effectiveInput s.availableKeysSet s.originalText.length raw).length =
      s.typedText.length) :
    handleInput now s raw = { s with startTime := newStartTime now s raw } := by
  simp only [handleInput]
  rw [if_neg (by omega), if_neg (by omega)]

lemma initState_inv (keys : List (List Char)) (text : List Char) :
    StateInv (initState keys text) := by
  refine ⟨by simp [initState], by simp [initState], ?_⟩
  intro i hi
  simp only [initState, List.length_replicate] at hi ⊢
  rw [getD_replicate _ _ _ _ hi]
  simp

lemma restartState_inv (s : SimState) (h : StateInv s) : StateInv (restartState s) := by
  obtain ⟨hlen, _, _⟩ := h
  refine ⟨by simp [restartState, hlen], by simp [restartState], ?_⟩
  intro i hi
  simp only [restartState, List.length_map] at hi ⊢
  rw [map_const_pending, getD_replicate _ _ _ _ hi]
  simp

lemma handleInput_inv (now : Nat) (s : SimState) (raw : List Char) (h : StateInv s) :
    StateInv (handleInput now s raw) := by
  obtain ⟨hlen, hle, hiff⟩ := h
  have hvN : (effectiveInput s.availableKeysSet s.originalText.length raw).length ≤
      s.originalText.length := effectiveInput_length_le _ _ _
  rcases Nat.lt_trichotomy s.typedText.length
      (effectiveInput s.availableKeysSet s.originalText.length raw).length
    with hcase | hcase | hcase
  · rw [handleInput_forward now s raw hcase]
    have hdl : ((effectiveInput s.availableKeysSet s.originalText.length raw).drop
        s.typedText.length).length =
        (effectiveInput s.availableKeysSet s.originalText.length raw).length -
          s.typedText.length := List.length_drop _ _
    refine ⟨?_, ?_, ?_⟩
    · simp only [processForward_fst_length, hlen]
    · exact hvN
    · intro i hi
      simp only [processForward_fst_length] at hi
      by_cases hlt : i < s.typedText.length
      · rw [processForward_getD_outside _ _ _ _ _ _ _ _ (Or.inl hlt)]
        have hold := hiff i hi
        constructor
        · intro _
          show i < (effectiveInput s.availableKeysSet s.originalText.length raw).length
          omega
        · intro _; exact hold.mpr hlt
      · by_cases hlt2 :
            i < (effectiveInput s.availableKeysSet s.originalText.length raw).length
        · have hne := processForward_getD_inside s.originalText .pending
            ((effectiveInput s.availableKeysSet s.originalText.length raw).drop
              s.typedText.length)
            s.typedText.length s.charStates s.totalErrors s.totalInputs i
            hlen (by omega) (by omega) (by omega)
          exact ⟨fun _ => hlt2, fun _ => hne⟩
        · rw [processForward_getD_outside _ _ _ _ _ _ _ _ (Or.inr (by omega))]
          have hold := hiff i hi
          constructor
          · intro hx; exact absurd (hold.mp hx) (by omega)
          · intro hx; exact absurd hx hlt2
  · rw [handleInput_same now s raw hcase.symm]
    exact ⟨hlen, hle, hiff⟩
  · rw [handleInput_back now s raw hcase]
    refine ⟨?_, ?_, ?_⟩
    · simp only [resetFromAux_length, hlen]
    · exact hvN
    · intro i hi
      simp only [resetFromAux_length] at hi
      rw [resetFromAux_getD]
      by_cases hcnd : i < s.charStates.length ∧
          (effectiveInput s.availableKeysSet s.originalText.length raw).length ≤ 0 + i ∧
          0 + i < s.originalText.length
      · rw [if_pos hcnd]
        constructor
        · intro hx; exact absurd rfl hx
        · intro hx
          have hx' : i <
              (effectiveInput s.availableKeysSet s.originalText.length raw).length := hx
          omega
      · rw [if_neg hcnd]
        have hivl : i <
            (effectiveInput s.availableKeysSet s.originalText.length raw).length := by
          by_contra hge
          exact hcnd ⟨hi, by omega, by omega⟩
        have hold := hiff i hi
        exact ⟨fun _ => hivl, fun _ => hold.mpr (by omega)⟩

lemma step_inv (s : SimState) (e : Event) (h : StateInv s) : StateInv (step s e) := by
  cases e with
  | input now raw => exact handleInput_inv now s raw h
  | restart => exact restartState_inv s h

lemma foldl_step_inv :
    ∀ (events : List Event) (s : SimState), StateInv s → StateInv (events.foldl step s) := by
  intro events
  induction events with
  | nil => intro s h; exact h
  | cons e rest ih => intro s h; exact ih (step s e) (step_inv s e h)

lemma run_inv (keys : List (List Char)) (text : List Char) (events : List Event) :
    StateInv (run keys text events) :=
  foldl_step_inv events _ (initState_inv keys text)

lemma handleInput_counters (now : Nat) (s : SimState) (raw : List Char) :
    (handleInput now s raw).totalErrors =
      s.totalErrors +
        (if s.typedText.length <
            (effectiveInput s.availableKeysSet s.originalText.length raw).length then
          mismatchCount s.originalText s.typedText.length
            ((effectiveInput s.availableKeysSet s.originalText.length raw).drop
              s.typedText.length)
        else 0) ∧
    (handleInput now s raw).totalInputs =
      s.totalInputs +
        (if s.typedText.length <
            (effectiveInput s.availableKeysSet s.originalText.length raw).length then
          min ((effectiveInput s.availableKeysSet s.originalText.length raw).drop
              s.typedText.length).length
            (s.originalText.length - s.typedText.length)
        else 0) := by
  rcases Nat.lt_trichotomy s.typedText.length
      (effectiveInput s.availableKeysSet s.originalText.length raw).length
    with hcase | hcase | hcase
  · rw [handleInput_forward now s raw hcase]
    obtain ⟨h1, h2⟩ := processForward_counts s.originalText
      ((effectiveInput s.availableKeysSet s.originalText.length raw).drop
        s.typedText.length)
      s.typedText.length s.charStates s.totalErrors s.totalInputs
    rw [if_pos hcase, if_pos hcase]
    exact ⟨h1, h2⟩
  · rw [handleInput_same now s raw hcase.symm, if_neg (by omega), if_neg (by omega)]
    exact ⟨rfl, rfl⟩
  · rw [handleInput_back now s raw hcase, if_neg (by omega), if_neg (by omega)]
    exact ⟨rfl, rfl⟩

lemma mismatchCount_le (original : List Char) (idx : Nat) (cs : List Char) :
    mismatchCount original idx cs ≤ min cs.length (original.length - idx) := by
  unfold mismatchCount
  calc ((cs.zip (original.drop idx)).filter (fun p => decide (p.1 ≠ p.2))).length
      ≤ (cs.zip (original.drop idx)).length := List.length_filter_le _ _
    _ = min cs.length (original.length - idx) := by
        rw [List.length_zip, List.length_drop]

lemma step_counters_le (s : SimState) (e : Event)
    (h : s.totalErrors ≤ s.totalInputs) :
    (step s e).totalErrors ≤ (step s e).totalInputs := by
  cases e with
  | restart => simp [step, restartState]
  | input now raw =>
    obtain ⟨h1, h2⟩ := handleInput_counters now s raw
    simp only [step]
    rw [h1, h2]
    by_cases hc : s.typedText.length <
        (effectiveInput s.availableKeysSet s.originalText.length raw).length
    · rw [if_pos hc, if_pos hc]
      have hm := mismatchCount_le s.originalText s.typedText.length
        ((effectiveInput s.availableKeysSet s.originalText.length raw).drop
          s.typedText.length)
      have hdl : ((effectiveInput s.availableKeysSet s.originalText.length raw).drop
          s.typedText.length).length =
          (effectiveInput s.availableKeysSet s.originalText.length raw).length -
            s.typedText.length := List.length_drop _ _
      omega
    · rw [if_neg hc, if_neg hc]; omega

lemma run_counters_le (keys : List (List Char)) (text : List Char) (events : List Event) :
    (run keys text events).totalErrors ≤ (run keys text events).totalInputs := by
  unfold run
  have : ∀ (evs : List Event) (s : SimState), s.totalErrors ≤ s.totalInputs →
      (evs.foldl step s).totalErrors ≤ (evs.foldl step s).totalInputs := by
    intro evs
    induction evs with
    | nil => intro s h; exact h
    | cons e rest ih => intro s h; exact ih (step s e) (step_counters_le s e h)
  exact this events _ (by simp [initState])

lemma accuracyOf_bounds (I E : Nat) (h : E ≤ I) :
    0 ≤ accuracyOf I E ∧ accuracyOf I E ≤ 100 := by
  unfold accuracyOf
  by_cases hI : 0 < I
  · rw [if_pos hI]
    have hI' : (0 : ℚ) < I := by exact_mod_cast hI
    have hE : (E : ℚ) ≤ I := by exact_mod_cast h
    constructor
    · apply mul_nonneg (div_nonneg (by linarith) (le_of_lt hI')) (by norm_num)
    · have hle1 : ((I : ℚ) - E) / I ≤ 1 := by
        rw [div_le_one hI']
        linarith
      calc ((I : ℚ) - E) / I * 100 ≤ 1 * 100 :=
            mul_le_mul_of_nonneg_right hle1 (by norm_num)
        _ = 100 := by norm_num
  · rw [if_neg hI]
    norm_num

set_option maxRecDepth 8000

/-- C1: for every reference text and every sequence of events (forward
typing, backspace, clamped overflow, restarts), after each event the length
of the typed prefix equals the number of positions whose state is not
`pending`. -/
theorem claim1_typed_length_eq_nonpending (keys : List (List Char)) (text : List Char)
    (events : List Event) :
    (run keys text events).typedText.length =
      nonPendingCount (run keys text events).charStates := by
  obtain ⟨hlen, hle, hiff⟩ := run_inv keys text events
  exact (length_filter_nonpending _ _ (by omega) hiff).symm

/-- C2: the completion predicate is true exactly when the right-trimmed
lengths of the typed and reference texts agree; for reference "cat", typing
"cat" completes, "ca" does not, and "cats" is clamped to "cat" and
completes. -/
theorem claim2_completion_boundary :
    (∀ reference typed : List Char,
      isCompleteText reference typed = true ↔
        (jsTrimEnd typed).length = (jsTrimEnd reference).length) ∧
    isComplete (run [] ("cat".toList) [Event.input 0 ("cat".toList)]) = true ∧
    isComplete (run [] ("cat".toList) [Event.input 0 ("ca".toList)]) = false ∧
    (run [] ("cat".toList) [Event.input 0 ("cats".toList)]).typedText = "cat".toList ∧
    isComplete (run [] ("cat".toList) [Event.input 0 ("cats".toList)]) = true := by
  refine ⟨?_, by decide, by decide, by decide, by decide⟩
  intro reference typed
  simp [isCompleteText]

/-- C3: for reference "ab" and the buffer sequence "a", "ax", "a", "ab"
(type a, type x, backspace, type b), the counters end at totalInputs = 3 and
totalErrors = 1, the final accuracy is (3-1)/3*100, and errorsLeft is 0. -/
theorem claim3_accuracy_example :
    (run [] ("ab".toList) [Event.input 0 ("a".toList), Event.input 0 ("ax".toList),
        Event.input 0 ("a".toList), Event.input 0 ("ab".toList)]).totalInputs = 3 ∧
    (run [] ("ab".toList) [Event.input 0 ("a".toList), Event.input 0 ("ax".toList),
        Event.input 0 ("a".toList), Event.input 0 ("ab".toList)]).totalErrors = 1 ∧
    (calculateStatistics (run [] ("ab".toList) [Event.input 0 ("a".toList),
        Event.input 0 ("ax".toList), Event.input 0 ("a".toList),
        Event.input 0 ("ab".toList)]) 1000).map FinalStats.accuracy =
      some ((3 - 1 : ℚ) / 3 * 100) ∧
    (calculateStatistics (run [] ("ab".toList) [Event.input 0 ("a".toList),
        Event.input 0 ("ax".toList), Event.input 0 ("a".toList),
        Event.input 0 ("ab".toList)]) 1000).map FinalStats.errorsLeft = some 0 := by
  have hrun : run [] ("ab".toList) [Event.input 0 ("a".toList),
      Event.input 0 ("ax".toList), Event.input 0 ("a".toList),
      Event.input 0 ("ab".toList)] =
      ⟨"ab".toList, "ab".toList, [CharState.correct, CharState.correct],
        some 0, 1, 3, []⟩ := by decide
  rw [hrun]
  refine ⟨rfl, rfl, ?_, ?_⟩
  · simp [calculateStatistics, accuracyOf]
  · simp [calculateStatistics, countIncorrect]

/-- C4: totalErrors never decreases; a call that is not forward typing
(backspace or equal length) leaves both counters unchanged, and a forward
call increments totalErrors by exactly the number of newly typed characters
that differ from the expected ones (and totalInputs by the number of
accepted characters). -/
theorem claim4_totalErrors_monotone (now : Nat) (s : SimState) (raw : List Char) :
    s.totalErrors ≤ (handleInput now s raw).totalErrors ∧
    (handleInput now s raw).totalErrors =
      s.totalErrors +
        (if s.typedText.length <
            (effectiveInput s.availableKeysSet s.originalText.length raw).length then
          mismatchCount s.originalText s.typedText.length
            ((effectiveInput s.availableKeysSet s.originalText.length raw).drop
              s.typedText.length)
        else 0) ∧
    (handleInput now s raw).totalInputs =
      s.totalInputs +
        (if s.typedText.length <
            (effectiveInput s.availableKeysSet s.originalText.length raw).length then
          min ((effectiveInput s.availableKeysSet s.originalText.length raw).drop
              s.typedText.length).length
            (s.originalText.length - s.typedText.length)
        else 0) := by
  obtain ⟨h1, h2⟩ := handleInput_counters now s raw
  refine ⟨by rw [h1]; omega, h1, h2⟩

/-- C5 counterexample: with reference "ab" and stored prefix "a", a call
with the same-length buffer "b" leaves the stored prefix at "a", not at the
clamped new value "b". -/
theorem claim5_counterexample :
    (handleInput 0 (run [] ("ab".toList) [Event.input 0 ("a".toList)])
        ("b".toList)).typedText ≠
      ("b".toList).take
        (run [] ("ab".toList) [Event.input 0 ("a".toList)]).originalText.length := by
  decide

/-- C5 (amended): the stored prefix becomes the filtered, clamped new value
exactly when that value's length differs from the stored prefix's length;
on an equal-length call the stored prefix is left unchanged. -/
theorem claim5_amended (now : Nat) (s : SimState) (raw : List Char) :
    (handleInput now s raw).typedText =
      if (effectiveInput s.availableKeysSet s.originalText.length raw).length =
          s.typedText.length then s.typedText
      else effectiveInput s.availableKeysSet s.originalText.length raw := by
  rcases Nat.lt_trichotomy s.typedText.length
      (effectiveInput s.availableKeysSet s.originalText.length raw).length
    with h | h | h
  · rw [handleInput_forward now s raw h, if_neg (by omega)]
  · rw [handleInput_same now s raw h.symm, if_pos h.symm]
  · rw [handleInput_back now s raw h, if_neg (by omega)]

/-- C6 counterexample: with the non-empty allow-set containing only "a",
the key identifier "Delete" is rejected, so it is not an always-available
key. -/
theorem claim6_counterexample :
    isKeyAvailable [("a".toList)] ("Delete".toList) = false := by
  decide

/-- C6 (amended): for every configured allow-set, the availability check
returns true for the space character (also non-breaking space), comma,
period, backspace (character and key name), enter/newline (characters and
the key names Enter and Return), and the lower-case key names space, comma,
dot, backspace, enter; the key identifier "Delete" is not among these. -/
theorem claim6_always_available (availableKeysSet : List (List Char)) :
    isKeyAvailable availableKeysSet [' '] = true ∧
    isKeyAvailable availableKeysSet [' '] = true ∧
    isKeyAvailable availableKeysSet [','] = true ∧
    isKeyAvailable availableKeysSet ['.'] = true ∧
    isKeyAvailable availableKeysSet ("Backspace".toList) = true ∧
    isKeyAvailable availableKeysSet ['\x08'] = true ∧
    isKeyAvailable availableKeysSet ("Enter".toList) = true ∧
    isKeyAvailable availableKeysSet ("Return".toList) = true ∧
    isKeyAvailable availableKeysSet ['\n'] = true ∧
    isKeyAvailable availableKeysSet ['\r'] = true ∧
    isKeyAvailable availableKeysSet ("space".toList) = true ∧
    isKeyAvailable availableKeysSet ("comma".toList) = true ∧
    isKeyAvailable availableKeysSet ("dot".toList) = true ∧
    isKeyAvailable availableKeysSet ("backspace".toList) = true ∧
    isKeyAvailable availableKeysSet ("enter".toList) = true :=
  ⟨rfl, rfl, rfl, rfl, rfl, rfl, rfl, rfl, rfl, rfl, rfl, rfl, rfl, rfl, rfl⟩

/-- C7: the word count is computed from the reference text alone (the speed
of the final report does not change when the typed text, the states or the
counters change), the reference "one two three" counts 3 words, and at 60
elapsed seconds the computed speed is 3 words per minute. -/
theorem claim7_speed_words :
    (∀ (s : SimState) (now : Nat) (typed : List Char) (cs : List CharState) (e n : Nat),
      (calculateStatistics
          { s with typedText := typed, charStates := cs, totalErrors := e,
                   totalInputs := n } now).map FinalStats.speed =
        (calculateStatistics s now).map FinalStats.speed) ∧
    wordCount ("one two three".toList) = 3 ∧
    (calculateStatistics (run [] ("one two three".toList)
        [Event.input 0 ("o".toList)]) 60000).map FinalStats.speed = some 3 := by
  refine ⟨?_, by decide, ?_⟩
  · intro s now typed cs e n
    cases hst : s.startTime with
    | none => simp [calculateStatistics, hst]
    | some t => simp [calculateStatistics, hst]
  · have hrun : run [] ("one two three".toList) [Event.input 0 ("o".toList)] =
        ⟨"one two three".toList, "o".toList,
          CharState.correct :: List.replicate 12 CharState.pending,
          some 0, 0, 1, []⟩ := by decide
    rw [hrun]
    simp [calculateStatistics]
    norm_num
    exact_mod_cast (by decide :
      wordCount ['o', 'n', 'e', ' ', 't', 'w', 'o', ' ', 't', 'h', 'r', 'e', 'e'] = 3)

/-- C8: whenever the clock has not started, the live snapshot is the all-zero
record together with the chars counts; being a total function of the state
it can neither diverge nor produce an undefined value. -/
theorem claim8_zero_snapshot (s : SimState) (now : Nat) (h : s.startTime = none) :
    calculateRealtimeStats s now =
      ⟨0, 0, 0, 0, 0, s.typedText.length, s.originalText.length⟩ := by
  simp [calculateRealtimeStats, h]

/-- Witness for C8: the freshly loaded "cat" session, before any keystroke,
reports all-zero metrics and chars 0 of 3. -/
theorem claim8_zero_snapshot_witness :
    calculateRealtimeStats (initState [] ("cat".toList)) 0 = ⟨0, 0, 0, 0, 0, 0, 3⟩ :=
  claim8_zero_snapshot (initState [] ("cat".toList)) 0 rfl

/-- C10: after every event sequence (inputs and restarts) the cumulative
error count is at most the cumulative input count, and therefore the
accuracy both statistics calculators compute from these counters lies in
[0, 100] (the live snapshot also reports an in-range accuracy before the
clock starts). -/
theorem claim10_accuracy_in_range (keys : List (List Char)) (text : List Char)
    (events : List Event) :
    (run keys text events).totalErrors ≤ (run keys text events).totalInputs ∧
    (0 ≤ accuracyOf (run keys text events).totalInputs
        (run keys text events).totalErrors ∧
      accuracyOf (run keys text events).totalInputs
        (run keys text events).totalErrors ≤ 100) ∧
    ∀ now : Nat,
      0 ≤ (calculateRealtimeStats (run keys text events) now).accuracy ∧
      (calculateRealtimeStats (run keys text events) now).accuracy ≤ 100 := by
  have h := run_counters_le keys text events
  obtain ⟨h1, h2⟩ := accuracyOf_bounds _ _ h
  refine ⟨h, ⟨h1, h2⟩, ?_⟩
  intro now
  cases hst : (run keys text events).startTime with
  | none => simp [calculateRealtimeStats, hst]
  | some t =>
    simp only [calculateRealtimeStats, hst]
    exact ⟨h1, h2⟩

lemma digitVal_digitChar (d : Nat) (h : d < 10) : (digitChar d).toNat - 48 = d := by
  interval_cases d <;> decide

lemma isDigit_digitChar (d : Nat) (h : d < 10) : (digitChar d).isDigit = true := by
  interval_cases d <;> decide

lemma natDigitsAux_congr :
    ∀ (f1 f2 n : Nat), n < f1 → n < f2 → natDigitsAux f1 n = natDigitsAux f2 n := by
  intro f1
  induction f1 with
  | zero => intro f2 n h1 _; omega
  | succ f1 ih =>
    intro f2 n h1 h2
    cases f2 with
    | zero => omega
    | succ f2 =>
      simp only [natDigitsAux]
      by_cases h : n < 10
      · rw [if_pos h, if_pos h]
      · rw [if_neg h, if_neg h]
        have hdiv : n / 10 < n := Nat.div_lt_self (by omega) (by omega)
        rw [ih f2 (n / 10) (by omega) (by omega)]

lemma natDigits_eq (n : Nat) :
    natDigits n =
      if n < 10 then [digitChar n] else natDigits (n / 10) ++ [digitChar (n % 10)] := by
  show natDigitsAux (n + 1) n = _
  simp only [natDigitsAux]
  by_cases h : n < 10
  · rw [if_pos h, if_pos h]
  · rw [if_neg h, if_neg h]
    have hdiv : n / 10 < n := Nat.div_lt_self (by omega) (by omega)
    show natDigitsAux n (n / 10) ++ _ = natDigits (n / 10) ++ _
    rw [natDigitsAux_congr n (n / 10 + 1) (n / 10) (by omega) (by omega)]
    rfl

lemma natDigits_ne_nil (n : Nat) : natDigits n ≠ [] := by
  rw [natDigits_eq]
  by_cases h : n < 10
  · rw [if_pos h]; simp
  · rw [if_neg h]; simp

lemma natDigits_all_digits (n : Nat) : ∀ c ∈ natDigits n, c.isDigit = true := by
  induction n using Nat.strong_induction_on with
  | _ n ih =>
    rw [natDigits_eq]
    by_cases h : n < 10
    · rw [if_pos h]
      intro c hc
      rw [List.mem_singleton] at hc
      rw [hc]
      exact isDigit_digitChar n h
    · rw [if_neg h]
      intro c hc
      rcases List.mem_append.mp hc with hm | hm
      · have hdiv : n / 10 < n := Nat.div_lt_self (by omega) (by omega)
        exact ih (n / 10) hdiv c hm
      · rw [List.mem_singleton] at hm
        rw [hm]
        exact isDigit_digitChar (n % 10) (Nat.mod_lt n (by omega))

lemma parseNat_append_digit (l : List Char) (c : Char) :
    parseNat (l ++ [c]) = parseNat l * 10 + (c.toNat - 48) := by
  unfold parseNat
  rw [List.foldl_append]
  rfl

lemma parseNat_natDigits (n : Nat) : parseNat (natDigits n) = n := by
  induction n using Nat.strong_induction_on with
  | _ n ih =>
    rw [natDigits_eq]
    by_cases h : n < 10
    · rw [if_pos h]
      show parseNat ([] ++ [digitChar n]) = n
      rw [parseNat_append_digit]
      have := digitVal_digitChar n h
      simp [parseNat]
      omega
    · rw [if_neg h]
      rw [parseNat_append_digit]
      have hdiv : n / 10 < n := Nat.div_lt_self (by omega) (by omega)
      rw [ih (n / 10) hdiv, digitVal_digitChar (n % 10) (Nat.mod_lt n (by omega))]
      omega

lemma not_ws_of_digit (c : Char) (h : c.isDigit = true) : isJsWhitespace c = false := by
  unfold isJsWhitespace
  by_cases h1 : c = ' '
  · subst h1; exact absurd h (by decide)
  by_cases h2 : c = '\t'
  · subst h2; exact absurd h (by decide)
  by_cases h3 : c = '\n'
  · subst h3; exact absurd h (by decide)
  by_cases h4 : c = '\r'
  · subst h4; exact absurd h (by decide)
  by_cases h5 : c = '\x0b'
  · subst h5; exact absurd h (by decide)
  by_cases h6 : c = '\x0c'
  · subst h6; exact absurd h (by decide)
  by_cases h7 : c = ' '
  · subst h7; exact absurd h (by decide)
  simp [h1, h2, h3, h4, h5, h6, h7]

lemma takeWhile_all {α : Type} (p : α → Bool) :
    ∀ (l : List α), (∀ a ∈ l, p a = true) → l.takeWhile p = l := by
  intro l
  induction l with
  | nil => intro _; rfl
  | cons a t ih =>
    intro h
    have ha : p a = true := h a (by simp)
    simp [List.takeWhile_cons, ha, ih (fun x hx => h x (by simp [hx]))]

lemma dropWhile_all_not {α : Type} (p : α → Bool) :
    ∀ (l : List α), (∀ a ∈ l, p a = false) → l.dropWhile p = l := by
  intro l
  induction l with
  | nil => intro _; rfl
  | cons a t _ =>
    intro h
    have ha : p a = false := h a (by simp)
    simp [List.dropWhile_cons, ha]

lemma takeWhile_append_sat {α : Type} (p : α → Bool) :
    ∀ (l1 : List α) (c : α) (l2 : List α), (∀ a ∈ l1, p a = true) → p c = false →
      (l1 ++ c :: l2).takeWhile p = l1 := by
  intro l1
  induction l1 with
  | nil =>
    intro c l2 _ hc
    simp [List.takeWhile_cons, hc]
  | cons a t ih =>
    intro c l2 hall hc
    have ha : p a = true := hall a (by simp)
    simp only [List.cons_append, List.takeWhile_cons, ha, if_true]
    rw [ih c l2 (fun x hx => hall x (by simp [hx])) hc]

lemma dropWhile_ws_digits_append (l rest : List Char)
    (h : ∀ a ∈ l, a.isDigit = true) (hne : l ≠ []) :
    (l ++ rest).dropWhile isJsWhitespace = l ++ rest := by
  cases l with
  | nil => exact absurd rfl hne
  | cons d ds =>
    have : isJsWhitespace d = false := not_ws_of_digit d (h d (by simp))
    simp [List.dropWhile_cons, this]

lemma isPrefixOf_append_self : ∀ (l r : List Char), l.isPrefixOf (l ++ r) = true := by
  intro l
  induction l with
  | nil => intro r; simp [List.isPrefixOf]
  | cons a t ih =>
    intro r
    simp [List.isPrefixOf, List.append_eq, ih]

lemma isPrefixOf_self (l : List Char) : l.isPrefixOf l = true := by
  have := isPrefixOf_append_self l []
  rwa [List.append_nil] at this

lemma exists_of_isPrefixOf :
    ∀ (l1 l2 : List Char), l1.isPrefixOf l2 = true → ∃ t, l2 = l1 ++ t := by
  intro l1
  induction l1 with
  | nil => intro l2 _; exact ⟨l2, rfl⟩
  | cons a t ih =>
    intro l2 h
    cases l2 with
    | nil => simp [List.isPrefixOf] at h
    | cons b bs =>
      simp only [List.isPrefixOf, Bool.and_eq_true, beq_iff_eq] at h
      obtain ⟨hab, hpre⟩ := h
      obtain ⟨tail, htail⟩ := ih bs hpre
      exact ⟨tail, by simp [hab, htail]⟩

lemma afterFirst_of_append (label rest : List Char) (hne : label ≠ []) :
    afterFirst label (label ++ rest) = some rest := by
  cases label with
  | nil => exact absurd rfl hne
  | cons a t =>
    have hp : (a :: t).isPrefixOf ((a :: t) ++ rest) = true := isPrefixOf_append_self _ _
    simp only [List.cons_append] at hp ⊢
    rw [afterFirst, if_pos hp]
    simp only [List.length_cons, List.drop_succ_cons]
    rw [List.drop_left]

lemma afterFirst_decomp :
    ∀ (line label r : List Char), afterFirst label line = some r →
      ∃ pre, line = pre ++ label ++ r := by
  intro line
  induction line with
  | nil =>
    intro label r h
    rw [afterFirst] at h
    by_cases hl : label.isEmpty
    · rw [if_pos hl] at h
      have hlab : label = [] := by
        cases label with
        | nil => rfl
        | cons a t => simp [List.isEmpty] at hl
      injection h with h
      exact ⟨[], by simp [hlab, ← h]⟩
    · rw [if_neg hl] at h
      cases h
  | cons c rest ih =>
    intro label r h
    rw [afterFirst] at h
    by_cases hp : label.isPrefixOf (c :: rest) = true
    · rw [if_pos hp] at h
      obtain ⟨tail, htail⟩ := exists_of_isPrefixOf label (c :: rest) hp
      injection h with h
      refine ⟨[], ?_⟩
      rw [htail] at h
      rw [List.drop_left] at h
      simp [htail, h]
    · rw [if_neg hp] at h
      obtain ⟨pre, hpre⟩ := ih label r h
      exact ⟨c :: pre, by simp [hpre]⟩

lemma afterFirst_none_of_missing (label line : List Char) (c : Char)
    (hc : c ∈ label) (hnotin : c ∉ line) : afterFirst label line = none := by
  cases h : afterFirst label line with
  | none => rfl
  | some r =>
    obtain ⟨pre, hpre⟩ := afterFirst_decomp line label r h
    refine absurd ?_ hnotin
    rw [hpre]
    simp [hc]

lemma notin_natDigits (c : Char) (h : c.isDigit = false) (n : Nat) : c ∉ natDigits n := by
  intro hmem
  rw [natDigits_all_digits n c hmem] at h
  cases h

lemma twoDigits_all_digits (m : Nat) : ∀ c ∈ twoDigits m, c.isDigit = true := by
  unfold twoDigits
  by_cases h : m < 10
  · rw [if_pos h]
    intro c hc
    rcases List.mem_cons.mp hc with hc | hc
    · rw [hc]; decide
    · exact natDigits_all_digits m c hc
  · rw [if_neg h]
    exact natDigits_all_digits m

lemma toFixed2_chars (q : ℚ) : ∀ c ∈ toFixed2 q, c.isDigit = true ∨ c = '.' := by
  intro c hc
  unfold toFixed2 at hc
  rcases List.mem_append.mp hc with h | h
  · exact Or.inl (natDigits_all_digits _ c h)
  · rcases List.mem_cons.mp h with h | h
    · exact Or.inr h
    · exact Or.inl (twoDigits_all_digits _ c h)

lemma notin_toFixed2 (c : Char) (h : c.isDigit = false) (hd : c ≠ '.') (q : ℚ) :
    c ∉ toFixed2 q := by
  intro hmem
  rcases toFixed2_chars q c hmem with hx | hx
  · rw [hx] at h; cases h
  · exact hd hx

lemma toFixed2_ne_nil (q : ℚ) : toFixed2 q ≠ [] := by
  unfold toFixed2
  simp [natDigits_ne_nil]

lemma splitLines_single :
    ∀ (l : List Char), '\n' ∉ l → splitLines l = [l] := by
  intro l
  induction l with
  | nil => intro _; rfl
  | cons c cs ih =>
    intro h
    have hc : ¬ c = '\n' := fun hx => h (by simp [hx])
    rw [splitLines, if_neg hc, ih (fun hx => h (by simp [hx]))]

lemma splitLines_append_newline :
    ∀ (l t : List Char), '\n' ∉ l → splitLines (l ++ '\n' :: t) = l :: splitLines t := by
  intro l
  induction l with
  | nil =>
    intro t _
    simp [splitLines]
  | cons c cs ih =>
    intro t h
    have hc : ¬ c = '\n' := fun hx => h (by simp [hx])
    simp only [List.cons_append]
    rw [splitLines, if_neg hc, ih t (fun hx => h (by simp [hx]))]

lemma splitLines_joinLines :
    ∀ (ls : List (List Char)), ls ≠ [] → (∀ l ∈ ls, '\n' ∉ l) →
      splitLines (joinLines ls) = ls := by
  intro ls
  induction ls with
  | nil => intro h _; exact absurd rfl h
  | cons l rest ih =>
    intro _ hall
    cases rest with
    | nil =>
      show splitLines (joinLines [l]) = [l]
      rw [joinLines]
      exact splitLines_single l (hall l (by simp))
    | cons l2 rest2 =>
      show splitLines (joinLines (l :: l2 :: rest2)) = l :: l2 :: rest2
      rw [joinLines]
      rw [splitLines_append_newline l _ (hall l (by simp))]
      have hrest : splitLines (joinLines (l2 :: rest2)) = l2 :: rest2 :=
        ih (fun hx => List.noConfusion hx)
          (fun x hx => hall x (List.mem_cons_of_mem l hx))
      rw [hrest]
      exact fun hx => List.noConfusion hx

lemma natDigits_single (n : Nat) (h : n < 10) : natDigits n = [digitChar n] := by
  rw [natDigits_eq, if_pos h]

lemma parseNat_twoDigits (m : Nat) (h : m < 100) : parseNat (twoDigits m) = m := by
  unfold twoDigits
  by_cases h10 : m < 10
  · rw [if_pos h10, natDigits_single m h10]
    show parseNat (['0'] ++ [digitChar m]) = m
    rw [parseNat_append_digit]
    have hv := digitVal_digitChar m h10
    have h0 : parseNat ['0'] = 0 := by decide
    rw [h0]
    omega
  · rw [if_neg h10, natDigits_eq, if_neg h10]
    have hq : m / 10 < 10 := by omega
    rw [natDigits_single (m / 10) hq, parseNat_append_digit]
    have h1 := digitVal_digitChar (m / 10) hq
    have h2 := digitVal_digitChar (m % 10) (by omega)
    have h3 : parseNat [digitChar (m / 10)] = m / 10 := by
      show parseNat ([] ++ [digitChar (m / 10)]) = m / 10
      rw [parseNat_append_digit, h1]
      simp [parseNat]
    rw [h3]
    omega

lemma twoDigits_length (m : Nat) (h : m < 100) : (twoDigits m).length = 2 := by
  unfold twoDigits
  by_cases h10 : m < 10
  · rw [if_pos h10, natDigits_single m h10]
    rfl
  · rw [if_neg h10, natDigits_eq, if_neg h10, natDigits_single (m / 10) (by omega)]
    rfl

lemma parseDecimal_toFixed2 (q : ℚ) : parseDecimal (toFixed2 q) = fixed2Value q := by
  have hT : toFixed2 q = natDigits ((q * 100 + 1 / 2).floor.toNat / 100) ++
      '.' :: twoDigits ((q * 100 + 1 / 2).floor.toNat % 100) := rfl
  set n := (q * 100 + 1 / 2).floor.toNat with hn
  have h100 : n % 100 < 100 := Nat.mod_lt n (by omega)
  unfold parseDecimal
  rw [hT]
  have htake : (natDigits (n / 100) ++ '.' :: twoDigits (n % 100)).takeWhile
      Char.isDigit = natDigits (n / 100) :=
    takeWhile_append_sat _ _ _ _ (natDigits_all_digits _) (by decide)
  rw [htake]
  dsimp only
  rw [List.drop_left]
  have hfr : (twoDigits (n % 100)).takeWhile Char.isDigit = twoDigits (n % 100) :=
    takeWhile_all _ _ (twoDigits_all_digits _)
  show (↑(parseNat (natDigits (n / 100))) +
      ↑(parseNat ((twoDigits (n % 100)).takeWhile Char.isDigit)) /
        (10 : ℚ) ^ ((twoDigits (n % 100)).takeWhile Char.isDigit).length : ℚ) =
    fixed2Value q
  rw [hfr, parseNat_natDigits, parseNat_twoDigits _ h100, twoDigits_length _ h100]
  unfold fixed2Value
  rw [← hn]
  have hc : (n : ℚ) = 100 * ((n / 100 : Nat) : ℚ) + ((n % 100 : Nat) : ℚ) := by
    exact_mod_cast (Nat.div_add_mod n 100).symm
  rw [hc]
  norm_num
  ring

lemma intField_line (label : List Char) (hl : label ≠ []) (E : Nat) :
    intField label (label ++ (' ' :: natDigits E)) = some E := by
  unfold intField
  rw [afterFirst_of_append label _ hl]
  dsimp only
  have hdw : (' ' :: natDigits E).dropWhile isJsWhitespace = natDigits E := by
    rw [List.dropWhile_cons, if_pos (by decide)]
    exact dropWhile_all_not _ _ (fun a ha => not_ws_of_digit a (natDigits_all_digits E a ha))
  rw [hdw, takeWhile_all _ _ (natDigits_all_digits E)]
  have hemp : (natDigits E).isEmpty = false := by
    cases h : natDigits E with
    | nil => exact absurd h (natDigits_ne_nil E)
    | cons a t => rfl
  rw [hemp, if_neg (by simp), parseNat_natDigits]

lemma floatFieldWs_line (label : List Char) (hl : label ≠ []) (q : ℚ) (tail : List Char)
    (htail : tail.dropWhile isJsWhitespace = tail) :
    floatFieldWs label tail (label ++ (' ' :: (toFixed2 q ++ ' ' :: tail))) =
      some (parseDecimal (toFixed2 q)) := by
  unfold floatFieldWs
  rw [afterFirst_of_append label _ hl]
  dsimp only
  have hr1 : (' ' :: (toFixed2 q ++ ' ' :: tail)).dropWhile isJsWhitespace =
      toFixed2 q ++ ' ' :: tail := by
    rw [List.dropWhile_cons, if_pos (by decide)]
    simp only [toFixed2, List.cons_append, List.append_assoc]
    exact dropWhile_ws_digits_append _ _ (natDigits_all_digits _) (natDigits_ne_nil _)
  rw [hr1]
  have hnum : (toFixed2 q ++ ' ' :: tail).takeWhile (fun c => c.isDigit || c = '.') =
      toFixed2 q := by
    refine takeWhile_append_sat _ _ _ _ ?_ (by decide)
    intro a ha
    rcases toFixed2_chars q a ha with h | h
    · simp [h]
    · simp [h]
  rw [hnum]
  have hemp : (toFixed2 q).isEmpty = false := by
    cases h : toFixed2 q with
    | nil => exact absurd h (toFixed2_ne_nil q)
    | cons a t => rfl
  rw [hemp, if_neg (by simp), List.drop_left]
  have hdrp : (' ' :: tail).dropWhile isJsWhitespace = tail := by
    rw [List.dropWhile_cons, if_pos (by decide)]
    exact htail
  rw [hdrp, isPrefixOf_self, if_pos rfl]

lemma floatFieldNoWs_line (label : List Char) (hl : label ≠ []) (q : ℚ)
    (c0 : Char) (t0 : List Char) (hc0 : (c0.isDigit || c0 = '.') = false) :
    floatFieldNoWs label (c0 :: t0) (label ++ (' ' :: (toFixed2 q ++ c0 :: t0))) =
      some (parseDecimal (toFixed2 q)) := by
  unfold floatFieldNoWs
  rw [afterFirst_of_append label _ hl]
  dsimp only
  have hr1 : (' ' :: (toFixed2 q ++ c0 :: t0)).dropWhile isJsWhitespace =
      toFixed2 q ++ c0 :: t0 := by
    rw [List.dropWhile_cons, if_pos (by decide)]
    simp only [toFixed2, List.cons_append, List.append_assoc]
    exact dropWhile_ws_digits_append _ _ (natDigits_all_digits _) (natDigits_ne_nil _)
  rw [hr1]
  have hnum : (toFixed2 q ++ c0 :: t0).takeWhile (fun c => c.isDigit || c = '.') =
      toFixed2 q := by
    refine takeWhile_append_sat _ _ _ _ ?_ hc0
    intro a ha
    rcases toFixed2_chars q a ha with h | h
    · simp [h]
    · simp [h]
  rw [hnum]
  have hemp : (toFixed2 q).isEmpty = false := by
    cases h : toFixed2 q with
    | nil => exact absurd h (toFixed2_ne_nil q)
    | cons a t => rfl
  rw [hemp, if_neg (by simp), List.drop_left]
  rw [isPrefixOf_self, if_pos rfl]

lemma notin_int_line (c : Char) (lbl : List Char) (n : Nat)
    (h1 : c ∉ lbl) (h2 : c ≠ ' ') (h3 : c.isDigit = false) :
    c ∉ lbl ++ (' ' :: natDigits n) := by
  intro hmem
  rcases List.mem_append.mp hmem with h | h
  · exact h1 h
  · rcases List.mem_cons.mp h with h | h
    · exact h2 h
    · exact notin_natDigits c h3 n h

lemma notin_float_line (c : Char) (lbl : List Char) (q : ℚ) (rest : List Char)
    (h1 : c ∉ lbl) (h2 : c ≠ ' ') (h3 : c.isDigit = false) (h4 : c ≠ '.')
    (h5 : c ∉ rest) : c ∉ lbl ++ (' ' :: (toFixed2 q ++ rest)) := by
  intro hmem
  rcases List.mem_append.mp hmem with h | h
  · exact h1 h
  · rcases List.mem_cons.mp h with h | h
    · exact h2 h
    · rcases List.mem_append.mp h with h | h
      · exact notin_toFixed2 c h3 h4 q h
      · exact h5 h

lemma parseLine_skip (acc : ParsedStats) (line : List Char)
    (h1 : afterFirst lblTotalErrors line = none)
    (h2 : afterFirst lblErrorsLeft line = none)
    (h3 : afterFirst lblTotalTime line = none)
    (h4 : afterFirst lblAccuracy line = none)
    (h5 : afterFirst lblSpeed line = none) :
    parseLine acc line = acc := by
  unfold parseLine
  rw [h1, h2, h3, h4, h5]
  simp

lemma parseLine_totalErrors (acc : ParsedStats) (E : Nat) :
    parseLine acc (lblTotalErrors ++ (' ' :: natDigits E)) =
      { acc with totalErrors := some E } := by
  have haf : afterFirst lblTotalErrors (lblTotalErrors ++ (' ' :: natDigits E)) =
      some (' ' :: natDigits E) := afterFirst_of_append _ _ (by decide)
  have hint : intField lblTotalErrors (lblTotalErrors ++ (' ' :: natDigits E)) =
      some E := intField_line _ (by decide) E
  unfold parseLine
  rw [haf, hint]
  simp

lemma parseLine_errorsLeft (acc : ParsedStats) (L : Nat) :
    parseLine acc (lblErrorsLeft ++ (' ' :: natDigits L)) =
      { acc with errorsLeft := some L } := by
  have hskip1 : afterFirst lblTotalErrors (lblErrorsLeft ++ (' ' :: natDigits L)) =
      none :=
    afterFirst_none_of_missing _ _ 'T' (by decide)
      (notin_int_line 'T' _ L (by decide) (by decide) (by decide))
  have haf : afterFirst lblErrorsLeft (lblErrorsLeft ++ (' ' :: natDigits L)) =
      some (' ' :: natDigits L) := afterFirst_of_append _ _ (by decide)
  have hint : intField lblErrorsLeft (lblErrorsLeft ++ (' ' :: natDigits L)) =
      some L := intField_line _ (by decide) L
  unfold parseLine
  rw [hskip1, haf, hint]
  simp

lemma parseLine_totalTime (acc : ParsedStats) (T : ℚ) :
    parseLine acc (lblTotalTime ++ (' ' :: (toFixed2 T ++ ' ' :: "seconds".toList))) =
      { acc with totalTime := some (parseDecimal (toFixed2 T)) } := by
  have hskip1 : afterFirst lblTotalErrors
      (lblTotalTime ++ (' ' :: (toFixed2 T ++ ' ' :: "seconds".toList))) = none :=
    afterFirst_none_of_missing _ _ 'E' (by decide)
      (notin_float_line 'E' _ T _ (by decide) (by decide) (by decide) (by decide)
        (by decide))
  have hskip2 : afterFirst lblErrorsLeft
      (lblTotalTime ++ (' ' :: (toFixed2 T ++ ' ' :: "seconds".toList))) = none :=
    afterFirst_none_of_missing _ _ '(' (by decide)
      (notin_float_line '(' _ T _ (by decide) (by decide) (by decide) (by decide)
        (by decide))
  have haf : afterFirst lblTotalTime
      (lblTotalTime ++ (' ' :: (toFixed2 T ++ ' ' :: "seconds".toList))) =
      some (' ' :: (toFixed2 T ++ ' ' :: "seconds".toList)) :=
    afterFirst_of_append _ _ (by decide)
  have hff : floatFieldWs lblTotalTime ("seconds".toList)
      (lblTotalTime ++ (' ' :: (toFixed2 T ++ ' ' :: "seconds".toList))) =
      some (parseDecimal (toFixed2 T)) :=
    floatFieldWs_line _ (by decide) T _ (by decide)
  unfold parseLine
  rw [hskip1, hskip2, haf, hff]
  simp

lemma parseLine_accuracy (acc : ParsedStats) (A : ℚ) :
    parseLine acc (lblAccuracy ++ (' ' :: (toFixed2 A ++ '%' :: []))) =
      { acc with accuracy := some (parseDecimal (toFixed2 A)) } := by
  have hskip1 : afterFirst lblTotalErrors
      (lblAccuracy ++ (' ' :: (toFixed2 A ++ '%' :: []))) = none :=
    afterFirst_none_of_missing _ _ 'T' (by decide)
      (notin_float_line 'T' _ A _ (by decide) (by decide) (by decide) (by decide)
        (by decide))
  have hskip2 : afterFirst lblErrorsLeft
      (lblAccuracy ++ (' ' :: (toFixed2 A ++ '%' :: []))) = none :=
    afterFirst_none_of_missing _ _ '(' (by decide)
      (notin_float_line '(' _ A _ (by decide) (by decide) (by decide) (by decide)
        (by decide))
  have hskip3 : afterFirst lblTotalTime
      (lblAccuracy ++ (' ' :: (toFixed2 A ++ '%' :: []))) = none :=
    afterFirst_none_of_missing _ _ 'T' (by decide)
      (notin_float_line 'T' _ A _ (by decide) (by decide) (by decide) (by decide)
        (by decide))
  have haf : afterFirst lblAccuracy
      (lblAccuracy ++ (' ' :: (toFixed2 A ++ '%' :: []))) =
      some (' ' :: (toFixed2 A ++ '%' :: [])) :=
    afterFirst_of_append _ _ (by decide)
  have hff : floatFieldNoWs lblAccuracy ('%' :: [])
      (lblAccuracy ++ (' ' :: (toFixed2 A ++ '%' :: []))) =
      some (parseDecimal (toFixed2 A)) :=
    floatFieldNoWs_line _ (by decide) A '%' [] (by decide)
  unfold parseLine
  rw [hskip1, hskip2, hskip3, haf, hff]
  simp

lemma parseLine_speed (acc : ParsedStats) (S : ℚ) :
    parseLine acc
        (lblSpeed ++ (' ' :: (toFixed2 S ++ ' ' :: "words per minute".toList))) =
      { acc with speed := some (parseDecimal (toFixed2 S)) } := by
  have hskip1 : afterFirst lblTotalErrors
      (lblSpeed ++ (' ' :: (toFixed2 S ++ ' ' :: "words per minute".toList))) = none :=
    afterFirst_none_of_missing _ _ 'T' (by decide)
      (notin_float_line 'T' _ S _ (by decide) (by decide) (by decide) (by decide)
        (by decide))
  have hskip2 : afterFirst lblErrorsLeft
      (lblSpeed ++ (' ' :: (toFixed2 S ++ ' ' :: "words per minute".toList))) = none :=
    afterFirst_none_of_missing _ _ '(' (by decide)
      (notin_float_line '(' _ S _ (by decide) (by decide) (by decide) (by decide)
        (by decide))
  have hskip3 : afterFirst lblTotalTime
      (lblSpeed ++ (' ' :: (toFixed2 S ++ ' ' :: "words per minute".toList))) = none :=
    afterFirst_none_of_missing _ _ 'T' (by decide)
      (notin_float_line 'T' _ S _ (by decide) (by decide) (by decide) (by decide)
        (by decide))
  have hskip4 : afterFirst lblAccuracy
      (lblSpeed ++ (' ' :: (toFixed2 S ++ ' ' :: "words per minute".toList))) = none :=
    afterFirst_none_of_missing _ _ 'A' (by decide)
      (notin_float_line 'A' _ S _ (by decide) (by decide) (by decide) (by decide)
        (by decide))
  have haf : afterFirst lblSpeed
      (lblSpeed ++ (' ' :: (toFixed2 S ++ ' ' :: "words per minute".toList))) =
      some (' ' :: (toFixed2 S ++ ' ' :: "words per minute".toList)) :=
    afterFirst_of_append _ _ (by decide)
  have hff : floatFieldWs lblSpeed ("words per minute".toList)
      (lblSpeed ++ (' ' :: (toFixed2 S ++ ' ' :: "words per minute".toList))) =
      some (parseDecimal (toFixed2 S)) :=
    floatFieldWs_line _ (by decide) S _ (by decide)
  unfold parseLine
  rw [hskip1, hskip2, hskip3, hskip4, haf, hff]
  simp

lemma newline_notin_int_line (pre : List Char) (h : '\n' ∉ pre) (n : Nat) :
    '\n' ∉ pre ++ natDigits n := by
  intro hm
  rcases List.mem_append.mp hm with h2 | h2
  · exact h h2
  · exact notin_natDigits '\n' (by decide) n h2

lemma newline_notin_float_line (pre suf : List Char) (h1 : '\n' ∉ pre)
    (h2 : '\n' ∉ suf) (q : ℚ) : '\n' ∉ pre ++ toFixed2 q ++ suf := by
  intro hm
  rcases List.mem_append.mp hm with h3 | h3
  · rcases List.mem_append.mp h3 with h4 | h4
    · exact h1 h4
    · exact notin_toFixed2 '\n' (by decide) (by decide) q h4
  · exact h2 h3

/-- C9: round-trip of the persisted report.  For every final statistics
record (nonnegative rationals standing for the nonnegative finite floats)
and every date string that contains no newline and none of the five field
labels, parsing the plain-text summary produced by the formatter recovers
all five fields: the integers exactly, and the rationals as the values of
their two-decimal renderings — with the header, separator, blank and
`Generated:` lines present as surrounding text. -/
theorem claim9_report_roundtrip (E L : Nat) (T A S : ℚ) (dateStr : List Char)
    (_hT : 0 ≤ T) (_hA : 0 ≤ A) (_hS : 0 ≤ S)
    (hnl : '\n' ∉ dateStr)
    (hd1 : afterFirst lblTotalErrors ("Generated: ".toList ++ dateStr) = none)
    (hd2 : afterFirst lblErrorsLeft ("Generated: ".toList ++ dateStr) = none)
    (hd3 : afterFirst lblTotalTime ("Generated: ".toList ++ dateStr) = none)
    (hd4 : afterFirst lblAccuracy ("Generated: ".toList ++ dateStr) = none)
    (hd5 : afterFirst lblSpeed ("Generated: ".toList ++ dateStr) = none) :
    parseStatsText (statsText ⟨E, L, T, A, S⟩ dateStr) =
      ⟨some E, some L, some (fixed2Value T), some (fixed2Value A),
        some (fixed2Value S)⟩ := by
  have hline4 : ("Total Errors Made: ".toList ++ natDigits E : List Char) =
      lblTotalErrors ++ (' ' :: natDigits E) := by
    rw [show ("Total Errors Made: ".toList : List Char) = lblTotalErrors ++ [' ']
        from by decide, List.append_assoc]
    rfl
  have hline5 : ("Errors Left (Unfixed): ".toList ++ natDigits L : List Char) =
      lblErrorsLeft ++ (' ' :: natDigits L) := by
    rw [show ("Errors Left (Unfixed): ".toList : List Char) = lblErrorsLeft ++ [' ']
        from by decide, List.append_assoc]
    rfl
  have hline6 : ("Total Time: ".toList ++ toFixed2 T ++ " seconds".toList : List Char) =
      lblTotalTime ++ (' ' :: (toFixed2 T ++ ' ' :: "seconds".toList)) := by
    rw [List.append_assoc,
       show ("Total Time: ".toList : List Char) = lblTotalTime ++ [' '] from by decide,
       List.append_assoc]
    rfl
  have hline7 : ("Accuracy: ".toList ++ toFixed2 A ++ ['%'] : List Char) =
      lblAccuracy ++ (' ' :: (toFixed2 A ++ '%' :: [])) := by
    rw [List.append_assoc,
       show ("Accuracy: ".toList : List Char) = lblAccuracy ++ [' '] from by decide,
       List.append_assoc]
    rfl
  have hline8 : ("Speed: ".toList ++ toFixed2 S ++ " words per minute".toList :
        List Char) =
      lblSpeed ++ (' ' :: (toFixed2 S ++ ' ' :: "words per minute".toList)) := by
    rw [List.append_assoc,
       show ("Speed: ".toList : List Char) = lblSpeed ++ [' '] from by decide,
       List.append_assoc]
    rfl
  have hnolines : ∀ l ∈ formatStats ⟨E, L, T, A, S⟩ dateStr, '\n' ∉ l := by
    intro l hl
    simp only [formatStats, List.mem_cons, List.not_mem_nil, or_false] at hl
    rcases hl with rfl | rfl | rfl | rfl | rfl | rfl | rfl | rfl | rfl | rfl | rfl
    · decide
    · decide
    · simp
    · exact newline_notin_int_line _ (by decide) E
    · exact newline_notin_int_line _ (by decide) L
    · exact newline_notin_float_line _ _ (by decide) (by decide) T
    · exact newline_notin_float_line _ _ (by decide) (by decide) A
    · exact newline_notin_float_line _ _ (by decide) (by decide) S
    · simp
    · intro hm
      rcases List.mem_append.mp hm with h2 | h2
      · exact absurd h2 (by decide)
      · exact hnl h2
    · simp
  unfold parseStatsText statsText
  rw [splitLines_joinLines _ (by simp [formatStats]) hnolines]
  unfold formatStats
  dsimp only
  rw [hline4, hline5, hline6, hline7, hline8]
  simp only [List.foldl_cons, List.foldl_nil]
  rw [parseLine_totalErrors]
  rw [parseLine_errorsLeft]
  rw [parseLine_totalTime]
  rw [parseLine_accuracy]
  rw [parseLine_speed]
  rw [parseLine_skip _ ("Typing Statistics".toList) (by decide) (by decide) (by decide)
    (by decide) (by decide)]
  rw [parseLine_skip _ ("==================".toList) (by decide) (by decide) (by decide)
    (by decide) (by decide)]
  rw [parseLine_skip _ ("Generated: ".toList ++ dateStr) hd1 hd2 hd3 hd4 hd5]
  rw [parseLine_skip _ ([]) (by decide) (by decide) (by decide) (by decide) (by decide)]
  rw [parseLine_skip _ ([]) (by decide) (by decide) (by decide) (by decide) (by decide)]
  rw [parseLine_skip _ ([]) (by decide) (by decide) (by decide) (by decide) (by decide)]
  rw [parseDecimal_toFixed2 T, parseDecimal_toFixed2 A, parseDecimal_toFixed2 S]

/-- Witness for C9 at a concrete report (5 errors, 2 left, 12.3 seconds,
accuracy 200/3, speed 15.5) and a concrete date line. -/
theorem claim9_report_roundtrip_witness :
    parseStatsText (statsText ⟨5, 2, 123 / 10, 200 / 3, 31 / 2⟩
        ("10/11/2025, 12:00:00 PM".toList)) =
      ⟨some 5, some 2, some (fixed2Value (123 / 10)), some (fixed2Value (200 / 3)),
        some (fixed2Value (31 / 2))⟩ :=
  claim9_report_roundtrip 5 2 (123 / 10) (200 / 3) (31 / 2)
    ("10/11/2025, 12:00:00 PM".toList) (by norm_num) (by norm_num) (by norm_num)
    (by decide) (by decide) (by decide) (by decide) (by decide) (by decide)

end TypingSim
